import Mathlib

/-!
Verification of the OGCAPI test-fixture replay harness
(`autotest/gdrivers/ogcapi.py`).

The harness is a small HTTP request handler (`OGCAPIHTTPHandler.do_GET`)
backed by a directory of recorded fixtures.  We embed the pure logic of the
handler shallowly:

* request paths and response bodies are modelled as `List Char`
  (the patterns involved — the reserved-character set, the decimal-precision
  regex, the loopback-URL regex, the `/fakeogcapi` marker — are all ASCII,
  so byte strings and char lists agree on everything the code inspects);
* `str.replace` is modelled by `replaceSubstr` (leftmost, non-overlapping);
* the two regex substitutions (`REPLACE_PRECISION_RE.sub` and
  `REPLACE_PORT_RE.sub`) are modelled by dedicated scanners
  (`precisionSub`, `portSub`) that mirror Python's leftmost-match,
  greedy-quantifier semantics for those two concrete patterns;
* the fixture directory is a `Store : List Char → Option (List Char)`;
  `none` stands for "the file is absent or opening/reading it raises
  `IOError`" (the code treats both identically via `except IOError`);
* the upstream service used in recording mode is a function
  `List Char → Option UpResp`; `none` stands for a transport error raised
  by `requests.get` / `response.content`.  In Python,
  `requests.exceptions.RequestException` is a subclass of `IOError`, so
  such an error is caught by the handler's `except IOError` clause.
-/

namespace OgcApi

/-- `matchesAt pat s`: `pat` occurs at the very start of `s`
(i.e. `pat` is a prefix of `s`). -/
def matchesAt : List Char → List Char → Bool
  | [], _ => true
  | _ :: _, [] => false
  | p :: ps, c :: cs => p == c && matchesAt ps cs

/-- `containsSub pat s`: `pat` occurs somewhere in `s`
(models Python `s.find(pat) != -1`). -/
def containsSub (pat : List Char) : List Char → Bool
  | [] => matchesAt pat []
  | c :: rest => matchesAt pat (c :: rest) || containsSub pat rest

/-- Python `s.replace(old, new)`: replace every occurrence of `old` by `new`,
scanning left to right, non-overlapping.  For `old = []` the Python function
behaves differently (it inserts `new` between characters); the harness only
ever calls it with non-empty `old`, and this model is the identity there. -/
def replaceSubstr (old new : List Char) : List Char → List Char
  | [] => []
  | c :: rest =>
    if old ≠ [] ∧ matchesAt old (c :: rest) then
      new ++ replaceSubstr old new (List.drop (old.length - 1) rest)
    else
      c :: replaceSubstr old new rest
termination_by l => l.length
decreasing_by
  all_goals simp_wf
  all_goals omega

/-- `REPLACE_PRECISION_RE = re.compile(r"(\d+\.\d{4})\d+")` applied via
`.sub("\\1", ·)`: scanning left to right, each leftmost match — a maximal
digit run, a dot, and at least five digits — is replaced by the digit run,
the dot and the first four digits after the dot (the greedy trailing `\d+`
consumes the rest of the digit run), and scanning resumes after the match. -/
def precisionSub : List Char → List Char
  | [] => []
  | c :: rest =>
    if c.isDigit then
      if (List.dropWhile Char.isDigit (c :: rest)).head? = some '.' ∧
          5 ≤ (List.takeWhile Char.isDigit (List.dropWhile Char.isDigit (c :: rest)).tail).length then
        List.takeWhile Char.isDigit (c :: rest) ++
          '.' :: (List.takeWhile Char.isDigit (List.dropWhile Char.isDigit (c :: rest)).tail).take 4 ++
          precisionSub (List.dropWhile Char.isDigit (List.dropWhile Char.isDigit (c :: rest)).tail)
      else c :: precisionSub rest
    else c :: precisionSub rest
termination_by l => l.length
decreasing_by
  all_goals simp_wf
  · have h1 : (List.dropWhile Char.isDigit (c :: rest)).length ≤ (c :: rest).length :=
      (List.dropWhile_sublist _).length_le
    have h2 : (List.dropWhile Char.isDigit (List.dropWhile Char.isDigit (c :: rest)).tail).length ≤
        (List.dropWhile Char.isDigit (c :: rest)).tail.length :=
      (List.dropWhile_sublist _).length_le
    have h3 : (List.dropWhile Char.isDigit (c :: rest)).tail.length =
        (List.dropWhile Char.isDigit (c :: rest)).length - 1 := List.length_tail _
    simp at h1 ⊢
    omega

/-- The reserved characters of `sanitize_url` (`chars = "&#/?=:,()"`). -/
def reservedChars : List Char := "&#/?=:,()".toList

/-- One step of the loop `text = text.replace(c, "_")`: a single-character
`str.replace` is a pointwise map. -/
def replaceChar (c : Char) (s : List Char) : List Char :=
  s.map (fun x => if x = c then '_' else x)

/-- The loop `for c in chars: text = text.replace(c, "_")`. -/
def replaceReserved (s : List Char) : List Char :=
  reservedChars.foldl (fun t c => replaceChar c t) s

/-- The synthetic-prefix marker `/fakeogcapi` as it appears in request paths. -/
def fakeMarker : List Char := "/fakeogcapi".toList

/-- The marker after reserved-character replacement: `_fakeogcapi`. -/
def sanitizedMarker : List Char := "_fakeogcapi".toList

/-- The literal that replaces the sanitized marker. -/
def requestLit : List Char := "request".toList

/-- `sanitize_url` from the source: replace each reserved character with `_`,
truncate over-long decimal runs with `REPLACE_PRECISION_RE`, then replace
`_fakeogcapi` with `request`. -/
def sanitize_url (url : List Char) : List Char :=
  replaceSubstr sanitizedMarker requestLit (precisionSub (replaceReserved url))

/-! ## The replay / recording HTTP handler -/

/-- The literal prefix of `REPLACE_PORT_RE = re.compile(rb"http://127.0.0.1:\d{4}")`. -/
def portPrefix : List Char := "http://127.0.0.1:".toList

/-- The `\d{4}` part of `REPLACE_PORT_RE`: the next four characters exist and
are ASCII digits (on bytes, `\d` matches only ASCII digits). -/
def fourDigits : List Char → Bool
  | a :: b :: c :: d :: _ => a.isDigit && b.isDigit && c.isDigit && d.isDigit
  | _ => false

/-- `REPLACE_PORT_RE` matches at the start of `s`. -/
def portMatchAt (s : List Char) : Bool :=
  matchesAt portPrefix s && fourDigits (List.drop 17 s)

/-- `REPLACE_PORT_RE.sub(nb, ·)`: each leftmost match — the 17-character
literal `http://127.0.0.1:` followed by exactly four digits, 21 characters in
all — is replaced by `nb`; any fifth digit of a longer port number is left in
place after the replacement. -/
def portSub (nb : List Char) : List Char → List Char
  | [] => []
  | c :: rest =>
    if portMatchAt (c :: rest) then nb ++ portSub nb (List.drop 20 rest)
    else c :: portSub nb rest
termination_by l => l.length
decreasing_by
  all_goals simp_wf
  all_goals omega

/-- Decimal rendering of a number, as Python `str(n)` for `n : Nat`. -/
def natChars (n : Nat) : List Char := (Nat.repr n).toList

/-- `TEST_DATA_SOURCE_ENDPOINT`. -/
def ENDPOINT : List Char := "https://maps.gnosis.earth/ogcapi".toList

/-- `ENDPOINT_PATH = urllib.parse.urlsplit(TEST_DATA_SOURCE_ENDPOINT).path`. -/
def ENDPOINT_PATH : List Char := "/ogcapi".toList

/-- Process-wide toggles and the server's bind information.  `addr` models
`self.address_string()` and `port` models `self.server.server_port`. -/
structure Config where
  record : Bool
  recordNewOnly : Bool
  addr : List Char
  port : Nat

/-- A successful upstream response, as exposed by `requests.get`. -/
structure UpResp where
  status : Nat
  reason : List Char
  headers : List (List Char × List Char)
  content : List Char

/-- What the handler writes back for one GET. -/
inductive GetOutcome where
  | served (bytes : List Char)
  | notFound (msg : List Char)
deriving DecidableEq

/-- The fixture store: sanitized file name (relative to
`BASE_TEST_DATA_PATH`) to file contents.  A value of `none` stands for
"absent, or opening/reading raises `IOError`". -/
def Store : Type := List Char → Option (List Char)

/-- Writing (or truncating) one file of the store. -/
def updateStore (s : Store) (k : List Char) (v : Option (List Char)) : Store :=
  fun k' => if k' = k then v else s k'

/-- `request_data_path` relative to the data directory:
`sanitize_url(self.path) + ".http_data"`. -/
def fixtureKey (path : List Char) : List Char :=
  sanitize_url path ++ ".http_data".toList

/-- `"http://" + self.address_string() + ":" + str(self.server.server_port)`:
the replacement text of `REPLACE_PORT_RE.sub` in the replay branch. -/
def localBase (cfg : Config) : List Char :=
  "http://".toList ++ cfg.addr ++ ':' :: natChars cfg.port

/-- `local_uri`: the local synthetic endpoint used to rewrite recorded
bodies. -/
def localUri (cfg : Config) : List Char :=
  localBase cfg ++ fakeMarker

/-- The header block written to a fixture record: every response header in
order, except that `Content-Encoding` is dropped and `Content-Length` is
replaced by the length of the rewritten content. -/
def buildHeaders (contentLen : Nat) : List (List Char × List Char) → List Char
  | [] => []
  | (k, v) :: hs =>
    if k = "Content-Encoding".toList then buildHeaders contentLen hs
    else if k = "Content-Length".toList then
      k ++ ": ".toList ++ natChars contentLen ++ "\r\n".toList ++ buildHeaders contentLen hs
    else k ++ ": ".toList ++ v ++ "\r\n".toList ++ buildHeaders contentLen hs

/-- The body stored in a fixture record: the upstream content with
`TEST_DATA_SOURCE_ENDPOINT` and then `ENDPOINT_PATH` rewritten to the local
synthetic endpoint. -/
def rewrittenContent (cfg : Config) (content : List Char) : List Char :=
  replaceSubstr ENDPOINT_PATH (localUri cfg)
    (replaceSubstr ENDPOINT (localUri cfg) content)

/-- The full fixture record built in recording mode: status line, headers,
blank line, rewritten body. -/
def buildRecord (cfg : Config) (resp : UpResp) : List Char :=
  "HTTP/1.1 ".toList ++ natChars resp.status ++ ' ' :: resp.reason ++ "\r\n".toList ++
    buildHeaders (rewrittenContent cfg resp.content).length resp.headers ++
    "\r\n".toList ++ rewrittenContent cfg resp.content

/-- The URL fetched from the real service in recording mode:
`TEST_DATA_SOURCE_ENDPOINT + self.path.replace("/fakeogcapi", "")`. -/
def upstreamUrl (path : List Char) : List Char :=
  ENDPOINT ++ replaceSubstr fakeMarker [] path

/-- The `send_error` message: `"File Not Found: %s" % self.path`. -/
def notFoundMsg (path : List Char) : List Char :=
  "File Not Found: ".toList ++ path

/-- `OGCAPIHTTPHandler.do_GET`, as a function of the toggles, the upstream
service, the fixture store and the request path; it returns the store after
the request and what was written to the client.

* Recording a synthetic path first opens the fixture file with mode
  `"wb+"` — truncating it — and only then calls `requests.get`.  A transport
  error there is a `requests.RequestException`, which subclasses `IOError`,
  so the handler's `except IOError: pass` catches it and falls through to the
  404 answer, leaving the just-truncated (empty) fixture file behind.
* With `RECORD_NEW_ONLY` set and an existing record, the record is served
  verbatim and nothing is fetched or written.
* In replay mode the record is served after `REPLACE_PORT_RE.sub` rewrites
  embedded loopback URLs to the current bind address; the file itself is not
  written.
* A missing or unreadable file, or a non-synthetic path, yields the 404. -/
def doGET (cfg : Config) (upstream : List Char → Option UpResp)
    (store : Store) (path : List Char) : Store × GetOutcome :=
  if containsSub fakeMarker path then
    if cfg.record then
      match cfg.recordNewOnly, store (fixtureKey path) with
      | true, some d => (store, .served d)
      | _, _ =>
        match upstream (upstreamUrl path) with
        | none =>
          (updateStore store (fixtureKey path) (some []),
            .notFound (notFoundMsg path))
        | some resp =>
          (updateStore store (fixtureKey path) (some (buildRecord cfg resp)),
            .served (buildRecord cfg resp))
    else
      match store (fixtureKey path) with
      | some d => (store, .served (portSub (localBase cfg) d))
      | none => (store, .notFound (notFoundMsg path))
  else (store, .notFound (notFoundMsg path))

/-! ## Helper lemmas: matching and substring replacement -/

theorem matchesAt_iff_IsPrefix {p s : List Char} :
    matchesAt p s = true ↔ p.IsPrefix s := by
  induction p generalizing s with
  | nil => simp [matchesAt]
  | cons a ps ih =>
    cases s with
    | nil => simp [matchesAt]
    | cons c cs =>
      simp only [matchesAt, Bool.and_eq_true, beq_iff_eq, ih, List.cons_prefix_cons]

theorem matchesAt_append_self (p t : List Char) : matchesAt p (p ++ t) = true := by
  exact matchesAt_iff_IsPrefix.mpr ⟨t, rfl⟩

theorem matchesAt_short {p a b : List Char} (h : matchesAt p (a ++ b) = true)
    (hl : p.length ≤ a.length) : matchesAt p a = true := by
  rw [matchesAt_iff_IsPrefix] at h ⊢
  exact List.prefix_of_prefix_length_le h (List.prefix_append a b) hl

theorem containsSub_of_matchesAt {pat s x : List Char}
    (hm : matchesAt pat s = true) (hs : s.IsSuffix x) : containsSub pat x = true := by
  induction x with
  | nil =>
    have : s = [] := List.eq_nil_of_suffix_nil hs
    subst this
    simpa [containsSub] using hm
  | cons c cs ih =>
    rcases hs with ⟨t, ht⟩
    cases t with
    | nil =>
      simp only [List.nil_append] at ht
      subst ht
      simp [containsSub, hm]
    | cons u us =>
      have hcs : s.IsSuffix cs := ⟨us, by injection ht⟩
      simp [containsSub, ih hcs]

theorem containsSub_append_false {pat a b : List Char}
    (ha : ∀ y, y.IsSuffix a → y ≠ [] → matchesAt pat (y ++ b) = false)
    (hb : containsSub pat b = false) : containsSub pat (a ++ b) = false := by
  induction a with
  | nil => simpa using hb
  | cons c cs ih =>
    have h1 : matchesAt pat ((c :: cs) ++ b) = false := ha (c :: cs) (List.suffix_refl _) (by simp)
    rw [List.cons_append] at h1
    have h2 : containsSub pat (cs ++ b) = false :=
      ih (fun y hy hne => ha y (hy.trans (List.suffix_cons c cs)) hne)
    rw [List.cons_append, containsSub, h1, h2]
    rfl

theorem containsSub_cons_false {pat : List Char} {c : Char} {cs : List Char}
    (h : containsSub pat (c :: cs) = false) :
    matchesAt pat (c :: cs) = false ∧ containsSub pat cs = false := by
  simpa [containsSub] using h

/-- A character of `replaceSubstr old new s` comes from `s` or from `new`. -/
theorem mem_replaceSubstr {old new s : List Char} {c : Char}
    (h : c ∈ replaceSubstr old new s) : c ∈ s ∨ c ∈ new := by
  induction s using replaceSubstr.induct old new with
  | case1 => simp [replaceSubstr] at h
  | case2 x rest hc ih =>
    rw [replaceSubstr, if_pos hc] at h
    rcases List.mem_append.mp h with h1 | h1
    · exact Or.inr h1
    · rcases ih h1 with h2 | h2
      · exact Or.inl (List.mem_cons_of_mem x ((List.drop_suffix _ _).mem h2))
      · exact Or.inr h2
  | case3 x rest hc ih =>
    rw [replaceSubstr, if_neg hc] at h
    rcases List.mem_cons.mp h with h1 | h1
    · exact Or.inl (h1 ▸ List.mem_cons_self x rest)
    · rcases ih h1 with h2 | h2
      · exact Or.inl (List.mem_cons_of_mem x h2)
      · exact Or.inr h2

/-- `str.replace` is the identity when the pattern does not occur. -/
theorem replaceSubstr_of_not_contains {old new s : List Char}
    (h : containsSub old s = false) : replaceSubstr old new s = s := by
  induction s with
  | nil => simp [replaceSubstr]
  | cons c cs ih =>
    obtain ⟨h1, h2⟩ := containsSub_cons_false h
    rw [replaceSubstr, if_neg (by simp [h1]), ih h2]

/-- `str.replace` fires on a leading occurrence of the pattern. -/
theorem replaceSubstr_cons_match {old new t : List Char} (hne : old ≠ []) :
    replaceSubstr old new (old ++ t) = new ++ replaceSubstr old new t := by
  cases old with
  | nil => exact absurd rfl hne
  | cons o os =>
    rw [List.cons_append, replaceSubstr,
      if_pos ⟨by simp, by simpa using matchesAt_append_self (o :: os) t⟩]
    congr 1
    congr 1
    simp [List.drop_append_of_le_length]

/-! ## Helper lemmas: takeWhile / dropWhile on structured input -/

theorem takeWhile_all_append {p : Char → Bool} {A B : List Char}
    (hA : ∀ c ∈ A, p c = true) (hB : ∀ x, B.head? = some x → p x = false) :
    List.takeWhile p (A ++ B) = A := by
  induction A with
  | nil =>
    cases B with
    | nil => simp
    | cons x r => simp [List.takeWhile_cons, hB x rfl]
  | cons d ds ih =>
    have hd : p d = true := hA d (by simp)
    simp only [List.cons_append, List.takeWhile_cons, hd, if_true]
    rw [ih (fun c hc => hA c (by simp [hc]))]

theorem dropWhile_all_append {p : Char → Bool} {A B : List Char}
    (hA : ∀ c ∈ A, p c = true) (hB : ∀ x, B.head? = some x → p x = false) :
    List.dropWhile p (A ++ B) = B := by
  induction A with
  | nil =>
    cases B with
    | nil => simp
    | cons x r => simp [List.dropWhile_cons, hB x rfl]
  | cons d ds ih =>
    have hd : p d = true := hA d (by simp)
    simp only [List.cons_append, List.dropWhile_cons, hd, if_true]
    exact ih (fun c hc => hA c (by simp [hc]))

/-! ## Helper lemmas: the precision regex -/

theorem precisionSub_nil : precisionSub [] = [] := by
  simp [precisionSub]

theorem precisionSub_cons_not_digit {c : Char} {rest : List Char}
    (h : c.isDigit = false) : precisionSub (c :: rest) = c :: precisionSub rest := by
  rw [precisionSub]
  simp [h]

/-- `precisionSub` passes over a digit-free block unchanged. -/
theorem precisionSub_append_not_digit {a y : List Char}
    (ha : ∀ c ∈ a, c.isDigit = false) :
    precisionSub (a ++ y) = a ++ precisionSub y := by
  induction a with
  | nil => simp
  | cons c cs ih =>
    rw [List.cons_append, precisionSub_cons_not_digit (ha c (by simp)),
      ih (fun c hc => ha c (by simp [hc]))]
    rfl

/-- The heart of the truncation behaviour: a maximal digit run, a dot, four
digits, and at least one more digit collapse to the run, the dot and the
first four digits; the extra digits vanish and scanning resumes after
them. -/
theorem precisionSub_match {D E4 E5 r : List Char}
    (hD : D ≠ []) (hDd : ∀ c ∈ D, c.isDigit = true)
    (hE4 : E4.length = 4) (hE4d : ∀ c ∈ E4, c.isDigit = true)
    (hE5 : E5 ≠ []) (hE5d : ∀ c ∈ E5, c.isDigit = true)
    (hr : ∀ x, r.head? = some x → x.isDigit = false) :
    precisionSub (D ++ '.' :: (E4 ++ E5 ++ r)) = D ++ '.' :: E4 ++ precisionSub r := by
  cases D with
  | nil => exact absurd rfl hD
  | cons d ds =>
    have hdot : ∀ x : Char, ('.' :: (E4 ++ E5 ++ r)).head? = some x → x.isDigit = false := by
      intro x hx
      simp at hx
      subst hx
      decide
    have hE45d : ∀ c ∈ E4 ++ E5, c.isDigit = true := by
      intro c hc
      rcases List.mem_append.mp hc with h | h
      · exact hE4d c h
      · exact hE5d c h
    have hdw : List.dropWhile Char.isDigit ((d :: ds) ++ '.' :: (E4 ++ E5 ++ r)) =
        '.' :: (E4 ++ E5 ++ r) := dropWhile_all_append hDd hdot
    have htw : List.takeWhile Char.isDigit ((d :: ds) ++ '.' :: (E4 ++ E5 ++ r)) =
        d :: ds := takeWhile_all_append hDd hdot
    have htw2 : List.takeWhile Char.isDigit (E4 ++ E5 ++ r) = E4 ++ E5 :=
      takeWhile_all_append hE45d hr
    have hdw2 : List.dropWhile Char.isDigit (E4 ++ E5 ++ r) = r :=
      dropWhile_all_append hE45d hr
    have hlen : 5 ≤ (E4 ++ E5).length := by
      have : 1 ≤ E5.length := List.length_pos.mpr hE5
      simp [hE4]
      omega
    have htake : (E4 ++ E5).take 4 = E4 := by
      rw [← hE4]
      exact List.take_left E4 E5
    rw [List.cons_append, precisionSub, if_pos (hDd d (by simp)), ← List.cons_append]
    rw [if_pos (by rw [hdw]; exact ⟨rfl, by rw [List.tail_cons, htw2]; exact hlen⟩)]
    rw [hdw, htw, List.tail_cons, htw2, hdw2, htake]

/-- Every character of `precisionSub s` already occurs in `s`. -/
theorem mem_precisionSub {s : List Char} {c : Char}
    (h : c ∈ precisionSub s) : c ∈ s := by
  induction s using precisionSub.induct with
  | case1 =>
    rw [precisionSub_nil] at h
    exact h
  | case2 x rest hx hcond ih =>
    rw [precisionSub, if_pos hx, if_pos hcond] at h
    have hdot : ('.' : Char) ∈ List.dropWhile Char.isDigit (x :: rest) := by
      rcases hcond with ⟨hh, _⟩
      cases hd : List.dropWhile Char.isDigit (x :: rest) with
      | nil => rw [hd] at hh; simp at hh
      | cons a t =>
        rw [hd] at hh
        simp at hh
        simp [hh]
    have htail : ∀ e : Char, e ∈ (List.dropWhile Char.isDigit (x :: rest)).tail →
        e ∈ x :: rest := fun e he =>
      (List.dropWhile_sublist _).mem ((List.tail_sublist _).mem he)
    simp only [List.mem_append, List.mem_cons] at h
    rcases h with (h1 | h1 | h1) | h1
    · exact (List.takeWhile_sublist _).mem h1
    · exact h1 ▸ (List.dropWhile_sublist _).mem hdot
    · exact htail c ((List.takeWhile_sublist _).mem (List.mem_of_mem_take h1))
    · exact htail c ((List.dropWhile_sublist _).mem (ih h1))
  | case3 x rest hx hcond ih =>
    rw [precisionSub, if_pos hx, if_neg hcond] at h
    rcases List.mem_cons.mp h with h1 | h1
    · simp [h1]
    · exact List.mem_cons_of_mem x (ih h1)
  | case4 x rest hx ih =>
    rw [precisionSub, if_neg hx] at h
    rcases List.mem_cons.mp h with h1 | h1
    · simp [h1]
    · exact List.mem_cons_of_mem x (ih h1)

/-- The precision pattern `(\d+\.\d{4})\d+` matches at the start of `s`. -/
def precMatchAt : List Char → Bool
  | [] => false
  | c :: rest => c.isDigit &&
      ((List.dropWhile Char.isDigit (c :: rest)).head? == some '.') &&
      decide (5 ≤ (List.takeWhile Char.isDigit (List.dropWhile Char.isDigit (c :: rest)).tail).length)

/-- The precision pattern matches somewhere in `s`. -/
def hasPrec : List Char → Bool
  | [] => false
  | c :: rest => precMatchAt (c :: rest) || hasPrec rest

/-- On a string without any precision-pattern match, `precisionSub` is the
identity. -/
theorem precisionSub_of_not_hasPrec {s : List Char}
    (h : hasPrec s = false) : precisionSub s = s := by
  induction s using precisionSub.induct with
  | case1 => exact precisionSub_nil
  | case2 x rest hx hcond ih =>
    exfalso
    rw [hasPrec] at h
    have hm : precMatchAt (x :: rest) = true := by
      rw [precMatchAt]
      rcases hcond with ⟨h1, h2⟩
      rw [hx]
      rw [h1]
      simp [h2]
    simp [hm] at h
  | case3 x rest hx hcond ih =>
    rw [hasPrec] at h
    simp only [Bool.or_eq_false_iff] at h
    rw [precisionSub, if_pos hx, if_neg hcond, ih h.2]
  | case4 x rest hx ih =>
    rw [hasPrec] at h
    simp only [Bool.or_eq_false_iff] at h
    rw [precisionSub, if_neg hx, ih h.2]

/-! ## Helper lemmas: reserved-character replacement -/

/-- What the reserved-character loop does to one character. -/
def sanitizeChar (c : Char) : Char :=
  reservedChars.foldl (fun x ch => if x = ch then '_' else x) c

theorem foldl_replaceChar_nil (cl : List Char) :
    cl.foldl (fun t ch => replaceChar ch t) [] = [] := by
  induction cl with
  | nil => rfl
  | cons a as ih => simpa [replaceChar] using ih

theorem foldl_replaceChar_cons (cl : List Char) (c : Char) (s : List Char) :
    cl.foldl (fun t ch => replaceChar ch t) (c :: s) =
      cl.foldl (fun x ch => if x = ch then '_' else x) c ::
        cl.foldl (fun t ch => replaceChar ch t) s := by
  induction cl generalizing c s with
  | nil => rfl
  | cons a as ih =>
    simp only [List.foldl_cons, replaceChar, List.map_cons]
    exact ih _ _

theorem replaceReserved_nil : replaceReserved [] = [] :=
  foldl_replaceChar_nil reservedChars

theorem replaceReserved_cons (c : Char) (s : List Char) :
    replaceReserved (c :: s) = sanitizeChar c :: replaceReserved s :=
  foldl_replaceChar_cons reservedChars c s

theorem replaceReserved_eq_map (s : List Char) :
    replaceReserved s = s.map sanitizeChar := by
  induction s with
  | nil => exact replaceReserved_nil
  | cons c cs ih => rw [replaceReserved_cons, ih, List.map_cons]

theorem replaceReserved_append (a b : List Char) :
    replaceReserved (a ++ b) = replaceReserved a ++ replaceReserved b := by
  simp [replaceReserved_eq_map]

theorem sanitizeChar_of_not_reserved {c : Char} (h : c ∉ reservedChars) :
    sanitizeChar c = c := by
  simp only [reservedChars, String.toList] at h
  simp only [List.mem_cons, not_or] at h
  obtain ⟨h1, h2, h3, h4, h5, h6, h7, h8, h9, -⟩ := h
  simp [sanitizeChar, reservedChars, String.toList, h1, h2, h3, h4, h5, h6, h7, h8, h9]

theorem sanitizeChar_mem_reserved {c : Char} (h : c ∈ reservedChars) :
    sanitizeChar c = '_' := by
  simp only [reservedChars, String.toList, List.mem_cons] at h
  rcases h with h | h | h | h | h | h | h | h | h | h
  all_goals first
    | (subst h; decide)
    | simp at h

theorem sanitizeChar_not_reserved (c : Char) : sanitizeChar c ∉ reservedChars := by
  by_cases h : c ∈ reservedChars
  · rw [sanitizeChar_mem_reserved h]
    decide
  · rw [sanitizeChar_of_not_reserved h]
    exact h

theorem replaceReserved_of_all_not_reserved {s : List Char}
    (h : ∀ c ∈ s, c ∉ reservedChars) : replaceReserved s = s := by
  rw [replaceReserved_eq_map]
  induction s with
  | nil => rfl
  | cons c cs ih =>
    rw [List.map_cons, sanitizeChar_of_not_reserved (h c (by simp)),
      ih (fun c hc => h c (by simp [hc]))]

/-! ## Helper lemmas: replace-all leaves no occurrence behind -/

theorem matchesAt_cons_iff {p : List Char} {c : Char} {t : List Char} (hp : p ≠ []) :
    matchesAt p (c :: t) = true ↔ p.head? = some c ∧ matchesAt p.tail t = true := by
  cases p with
  | nil => exact absurd rfl hp
  | cons m ms =>
    simp only [matchesAt, Bool.and_eq_true, beq_iff_eq, List.head?_cons,
      Option.some.injEq, List.tail_cons]

/-- After `replaceSubstr mk rq`, no occurrence of `mk` remains, provided the
head of `mk` does not occur in `rq` and the head of `rq` does not occur in
`mk` (so occurrences cannot straddle an inserted replacement).  The second
conjunct is the strengthening that makes the induction go through: a proper
tail of `mk` matching at the very start of the output must already have
matched at the start of the input. -/
theorem replaceSubstr_no_occurrence {mk rq : List Char}
    (hmk : mk ≠ []) (hrq : rq ≠ [])
    (hmh : ∀ c, mk.head? = some c → c ∉ rq)
    (hrh : ∀ c, rq.head? = some c → c ∉ mk) (z : List Char) :
    containsSub mk (replaceSubstr mk rq z) = false ∧
      (∀ k, 1 ≤ k → matchesAt (mk.drop k) (replaceSubstr mk rq z) = true →
        matchesAt (mk.drop k) z = true) := by
  induction z using replaceSubstr.induct mk rq with
  | case1 =>
    constructor
    · rw [replaceSubstr]
      cases mk with
      | nil => exact absurd rfl hmk
      | cons m ms => rfl
    · intro k _ h
      rw [replaceSubstr] at h
      exact h
  | case2 c rest hc ih =>
    rw [replaceSubstr, if_pos hc]
    constructor
    · apply containsSub_append_false
      · intro y hy hyne
        cases y with
        | nil => exact absurd rfl hyne
        | cons y0 ys =>
          have hy0 : y0 ∈ rq := hy.subset (by simp)
          rw [List.cons_append]
          cases hb : matchesAt mk (y0 :: (ys ++ replaceSubstr mk rq
              (List.drop (mk.length - 1) rest))) with
          | false => rfl
          | true =>
            exfalso
            have hhd := ((matchesAt_cons_iff hmk).mp hb).1
            exact hmh y0 hhd hy0
      · exact ih.1
    · intro k hk h
      cases hdk : mk.drop k with
      | nil => rfl
      | cons a as =>
        exfalso
        rw [hdk] at h
        have ha : a ∈ mk := (List.drop_sublist k mk).subset (hdk ▸ List.mem_cons_self a as)
        cases hrc : rq with
        | nil => exact absurd hrc hrq
        | cons r0 rs =>
          rw [hrc, List.cons_append] at h
          have hhd := ((matchesAt_cons_iff (by simp : a :: as ≠ [])).mp h).1
          simp only [List.head?_cons, Option.some.injEq] at hhd
          exact hrh r0 (by rw [hrc]; rfl) (hhd ▸ ha)
  | case3 c rest hc ih =>
    rw [replaceSubstr, if_neg hc]
    have hmm : matchesAt mk (c :: rest) = false := by
      cases hb : matchesAt mk (c :: rest) with
      | false => rfl
      | true => exact absurd ⟨hmk, hb⟩ hc
    constructor
    · rw [containsSub, Bool.or_eq_false_iff]
      refine ⟨?_, ih.1⟩
      cases hb : matchesAt mk (c :: replaceSubstr mk rq rest) with
      | false => rfl
      | true =>
        exfalso
        obtain ⟨hhd, htl⟩ := (matchesAt_cons_iff hmk).mp hb
        have htl2 : matchesAt mk.tail rest = true := by
          rw [← List.drop_one] at htl ⊢
          exact ih.2 1 le_rfl htl
        have hmt : matchesAt mk (c :: rest) = true :=
          (matchesAt_cons_iff hmk).mpr ⟨hhd, htl2⟩
        rw [hmt] at hmm
        exact Bool.noConfusion hmm
    · intro k hk h
      cases hdk : mk.drop k with
      | nil => rfl
      | cons a as =>
        rw [hdk] at h
        simp only [matchesAt, Bool.and_eq_true] at h ⊢
        refine ⟨h.1, ?_⟩
        have has : as = List.drop (k + 1) mk := by
          rw [← List.tail_drop, hdk]
          rfl
        rw [has] at h ⊢
        exact ih.2 (k + 1) (by omega) h.2

/-! ## Helper lemmas: the port regex -/

theorem portSub_nil (nb : List Char) : portSub nb [] = [] := by
  rw [portSub]

theorem portSub_cons_match {nb : List Char} {c : Char} {rest : List Char}
    (h : portMatchAt (c :: rest) = true) :
    portSub nb (c :: rest) = nb ++ portSub nb (List.drop 20 rest) := by
  rw [portSub, if_pos h]

theorem portSub_cons_no {nb : List Char} {c : Char} {rest : List Char}
    (h : portMatchAt (c :: rest) = false) :
    portSub nb (c :: rest) = c :: portSub nb rest := by
  rw [portSub, if_neg (by simp [h])]

/-- `portSub` copies a block that the port regex matches nowhere in
(also not straddling its right end). -/
theorem portSub_skip {nb x rest : List Char}
    (h : ∀ y, y.IsSuffix x → y ≠ [] → portMatchAt (y ++ rest) = false) :
    portSub nb (x ++ rest) = x ++ portSub nb rest := by
  induction x with
  | nil => simp
  | cons c cs ih =>
    have h1 : portMatchAt ((c :: cs) ++ rest) = false :=
      h (c :: cs) (List.suffix_refl _) (by simp)
    rw [List.cons_append] at h1
    rw [List.cons_append, portSub_cons_no h1,
      ih (fun y hy hne => h y (hy.trans (List.suffix_cons c cs)) hne), List.cons_append]

/-- `portSub` is the identity on strings that do not even contain the
literal part of the pattern. -/
theorem portSub_of_free {nb s : List Char}
    (h : containsSub portPrefix s = false) : portSub nb s = s := by
  induction s with
  | nil => exact portSub_nil nb
  | cons c cs ih =>
    obtain ⟨h1, h2⟩ := containsSub_cons_false h
    have hm : portMatchAt (c :: cs) = false := by
      simp [portMatchAt, h1]
    rw [portSub_cons_no hm, ih h2]

theorem portPrefix_length : portPrefix.length = 17 := by decide

/-- The port pattern matches a full old base URL: the literal, then any four
digits. -/
theorem portMatchAt_full {P t : List Char} (hP4 : P.length = 4)
    (hPd : ∀ c ∈ P, c.isDigit = true) :
    portMatchAt ((portPrefix ++ P) ++ t) = true := by
  have hm : matchesAt portPrefix ((portPrefix ++ P) ++ t) = true := by
    rw [List.append_assoc]
    exact matchesAt_append_self portPrefix (P ++ t)
  have hd : List.drop 17 ((portPrefix ++ P) ++ t) = P ++ t := by
    rw [List.append_assoc, ← portPrefix_length, List.drop_left]
  rw [portMatchAt, hm, hd]
  match P, hP4 with
  | [a, b, c, d], _ =>
    have ha : a.isDigit = true := hPd a (by simp)
    have hb : b.isDigit = true := hPd b (by simp)
    have hc : c.isDigit = true := hPd c (by simp)
    have hdd : d.isDigit = true := hPd d (by simp)
    simp [fourDigits, ha, hb, hc, hdd]

/-- Rewriting at a full old base URL consumes exactly the 21 matched
characters. -/
theorem portSub_match {nb P t : List Char} (hP4 : P.length = 4)
    (hPd : ∀ c ∈ P, c.isDigit = true) :
    portSub nb ((portPrefix ++ P) ++ t) = nb ++ portSub nb t := by
  have hcons : (portPrefix ++ P) ++ t =
      'h' :: (("ttp://127.0.0.1:".toList ++ P) ++ t) := by
    have : portPrefix = 'h' :: "ttp://127.0.0.1:".toList := by decide
    rw [this]
    simp
  rw [hcons, portSub_cons_match (by rw [← hcons]; exact portMatchAt_full hP4 hPd)]
  congr 1
  have hlen : ("ttp://127.0.0.1:".toList ++ P).length = 20 := by
    simp [hP4]
  rw [List.append_assoc, ← hlen, ← List.append_assoc, List.drop_left]

theorem portPrefix_no_h : ∀ k, k < 17 → 1 ≤ k → portPrefix.getD k 'x' ≠ 'h' := by
  decide

/-- No match of the port pattern can start strictly inside a block free of
the literal and extend into a following old base URL: the literal has no
nontrivial self-overlap (its first character occurs in it only once). -/
theorem portMatchAt_no_span {x y rest : List Char}
    (hfree : containsSub portPrefix x = false) (hy : y.IsSuffix x) (hyne : y ≠ [])
    (hrest : rest.head? = some 'h') :
    portMatchAt (y ++ rest) = false := by
  suffices hm : matchesAt portPrefix (y ++ rest) = false by
    simp [portMatchAt, hm]
  cases hb : matchesAt portPrefix (y ++ rest) with
  | false => rfl
  | true =>
    exfalso
    by_cases hlen : 17 ≤ y.length
    · have h1 : matchesAt portPrefix y = true :=
        matchesAt_short hb (by rw [portPrefix_length]; exact hlen)
      have := containsSub_of_matchesAt h1 hy
      rw [hfree] at this
      exact Bool.noConfusion this
    · have hpre : portPrefix.IsPrefix (y ++ rest) := matchesAt_iff_IsPrefix.mp hb
      have hy1 : 1 ≤ y.length := List.length_pos.mpr hyne
      have hylt : y.length < portPrefix.length := by
        rw [portPrefix_length]
        omega
      have hr0 : 0 < rest.length := by
        cases rest with
        | nil => simp at hrest
        | cons a t => simp
      have hb1 : y.length < (y ++ rest).length := by
        rw [List.length_append]
        omega
      have h1 : portPrefix.getD y.length 'x' = (y ++ rest).getD y.length 'x' := by
        rw [List.getD_eq_getElem _ _ hylt, List.getD_eq_getElem _ _ hb1]
        exact hpre.getElem hylt
      have h2 : (y ++ rest).getD y.length 'x' = rest.getD 0 'x' := by
        rw [List.getD_eq_getElem _ _ hb1, List.getD_eq_getElem _ _ hr0]
        rw [List.getElem_append_right (le_refl y.length)]
        simp
      have h3 : rest.getD 0 'x' = 'h' := by
        cases rest with
        | nil => simp at hrest
        | cons a t =>
          simp at hrest
          simp [hrest]
      have h5 := portPrefix_no_h y.length (by rw [portPrefix_length] at hylt; omega) hy1
      rw [h1, h2, h3] at h5
      exact h5 rfl

/-- Python bytes join of parts with a separator (used to state the
replay-rewrite claim: a fixture is its parts joined by the old base URL). -/
def joinWith (sep : List Char) : List (List Char) → List Char
  | [] => []
  | [x] => x
  | x :: y :: xs => x ++ sep ++ joinWith sep (y :: xs)

/-- The central replay-rewrite fact: on a fixture consisting of
occurrence-free blocks joined by `http://127.0.0.1:` plus a four-digit port,
`REPLACE_PORT_RE.sub nb` yields exactly the same blocks joined by `nb`. -/
theorem portSub_joinWith {nb P : List Char} {parts : List (List Char)}
    (hP4 : P.length = 4) (hPd : ∀ c ∈ P, c.isDigit = true)
    (hparts : ∀ part ∈ parts, containsSub portPrefix part = false) :
    portSub nb (joinWith (portPrefix ++ P) parts) = joinWith nb parts := by
  induction parts with
  | nil => exact portSub_nil nb
  | cons x xs ih =>
    cases xs with
    | nil => exact portSub_of_free (hparts x (by simp))
    | cons y ys =>
      have hhead : ((portPrefix ++ P) ++ joinWith (portPrefix ++ P) (y :: ys)).head? =
          some 'h' := by
        have hpp : portPrefix = 'h' :: "ttp://127.0.0.1:".toList := by decide
        rw [hpp]
        simp
      have hJ : portSub nb ((portPrefix ++ P) ++ joinWith (portPrefix ++ P) (y :: ys)) =
          nb ++ portSub nb (joinWith (portPrefix ++ P) (y :: ys)) :=
        portSub_match hP4 hPd
      have hskip : portSub nb (x ++ ((portPrefix ++ P) ++ joinWith (portPrefix ++ P) (y :: ys))) =
          x ++ portSub nb ((portPrefix ++ P) ++ joinWith (portPrefix ++ P) (y :: ys)) :=
        portSub_skip (fun w hw hne =>
          portMatchAt_no_span (hparts x (by simp)) hw hne hhead)
      rw [joinWith, List.append_assoc, hskip, hJ,
        ih (fun part hp => hparts part (by simp [hp])), joinWith, List.append_assoc]

/-! ## Helper lemmas: structure of sanitize_url -/

theorem replaceReserved_fakeMarker : replaceReserved fakeMarker = sanitizedMarker := by
  decide

theorem sanitizedMarker_no_digit : ∀ c ∈ sanitizedMarker, c.isDigit = false := by
  decide

/-- The key of a synthetic path is the literal `request` glued onto the key
of the path remainder. -/
theorem sanitize_url_fake_append (r : List Char) :
    sanitize_url (fakeMarker ++ r) = requestLit ++ sanitize_url r := by
  rw [sanitize_url, replaceReserved_append, replaceReserved_fakeMarker,
    precisionSub_append_not_digit sanitizedMarker_no_digit,
    replaceSubstr_cons_match (by decide : sanitizedMarker ≠ []), sanitize_url]

theorem requestLit_not_reserved : ∀ c ∈ requestLit, c ∉ reservedChars := by
  decide

/-- No character of a derived key is a reserved character. -/
theorem sanitize_url_no_reserved {s : List Char} :
    ∀ c ∈ sanitize_url s, c ∉ reservedChars := by
  intro c hc
  rcases mem_replaceSubstr hc with h | h
  · have h2 := mem_precisionSub h
    rw [replaceReserved_eq_map] at h2
    rcases List.mem_map.mp h2 with ⟨d, _, hd⟩
    exact hd ▸ sanitizeChar_not_reserved d
  · exact requestLit_not_reserved c h

/-- No occurrence of the sanitized marker survives in a derived key. -/
theorem sanitize_url_no_marker (s : List Char) :
    containsSub sanitizedMarker (sanitize_url s) = false :=
  (replaceSubstr_no_occurrence (by decide) (by decide)
    (by intro c hc; simp only [sanitizedMarker] at hc;
        simp at hc; subst hc; decide)
    (by intro c hc; simp only [requestLit] at hc;
        simp at hc; subst hc; decide)
    (precisionSub (replaceReserved s))).1

/-- Any string with no reserved character, no match of the precision pattern
and no occurrence of the sanitized marker is a fixed point of key
derivation. -/
theorem sanitize_url_fixed {s : List Char}
    (h1 : ∀ c ∈ s, c ∉ reservedChars)
    (h2 : hasPrec s = false)
    (h3 : containsSub sanitizedMarker s = false) :
    sanitize_url s = s := by
  rw [sanitize_url, replaceReserved_of_all_not_reserved h1,
    precisionSub_of_not_hasPrec h2, replaceSubstr_of_not_contains h3]

/-! ## Claim C1 -/

/-- C1, as stated, is false at this input: in recording mode
(`RECORD = True`, `RECORD_NEW_ONLY = False`) with an existing fixture record
`OLD`, a transport failure of the upstream fetch does not leave the store
entry unchanged — the record was already truncated by `open(..., "wb+")`
before the fetch, so the entry becomes an empty record, and the error (an
`IOError` subclass) is answered with a 404 instead of propagating. -/
theorem C1_counterexample :
    (doGET ⟨true, false, "127.0.0.1".toList, 8080⟩ (fun _ => none)
        (fun k => if k = fixtureKey "/fakeogcapi/x".toList then some "OLD".toList else none)
        "/fakeogcapi/x".toList).1 (fixtureKey "/fakeogcapi/x".toList) = some [] ∧
    (fun k => if k = fixtureKey "/fakeogcapi/x".toList then some "OLD".toList else none :
        Store) (fixtureKey "/fakeogcapi/x".toList) = some "OLD".toList ∧
    some ([] : List Char) ≠ some "OLD".toList ∧
    (doGET ⟨true, false, "127.0.0.1".toList, 8080⟩ (fun _ => none)
        (fun k => if k = fixtureKey "/fakeogcapi/x".toList then some "OLD".toList else none)
        "/fakeogcapi/x".toList).2 =
      .notFound (notFoundMsg "/fakeogcapi/x".toList) := by
  have hfake : containsSub fakeMarker "/fakeogcapi/x".toList = true := by decide
  refine ⟨?_, by simp, by simp, ?_⟩
  · rw [doGET]
    simp +decide [updateStore]
  · rw [doGET]
    simp +decide []

/-- C1 (amended): in recording mode, when a synthetic request is actually
recorded (not skipped) and the upstream fetch fails with a transport error,
the handler catches the error (`requests.RequestException` subclasses
`IOError`) and answers 404, and the fixture entry for the request key has
been truncated to an empty record by the `"wb+"` open that preceded the
fetch. -/
theorem C1_record_fetch_failure (cfg : Config) (up : List Char → Option UpResp)
    (store : Store) (path : List Char)
    (hrec : cfg.record = true)
    (hfake : containsSub fakeMarker path = true)
    (hskip : cfg.recordNewOnly = false ∨ store (fixtureKey path) = none)
    (hup : up (upstreamUrl path) = none) :
    doGET cfg up store path =
      (updateStore store (fixtureKey path) (some []),
        .notFound (notFoundMsg path)) := by
  rw [doGET]
  simp only [hfake, if_true, hrec]
  rcases hskip with h | h
  · rw [h]
    simp [hup]
  · rw [h]
    cases cfg.recordNewOnly
    all_goals simp [hup]

theorem C1_record_fetch_failure_witness :
    doGET ⟨true, false, "127.0.0.1".toList, 8080⟩ (fun _ => none)
        (fun _ => some "OLD".toList) "/fakeogcapi/x".toList =
      (updateStore (fun _ => some "OLD".toList)
        (fixtureKey "/fakeogcapi/x".toList) (some []),
        .notFound (notFoundMsg "/fakeogcapi/x".toList)) :=
  C1_record_fetch_failure _ _ _ _ rfl (by decide) (Or.inl rfl) rfl

/-! ## Claim C2 -/

/-- C2, as stated, is false for five-digit old ports: replaying a fixture
recorded against port 12345 on a server bound to port 8080 serves
`http://127.0.0.1:80805/a` — the regex `http://127.0.0.1:\d{4}` consumes
only the first four digits, so the fifth digit survives the rewrite and the
embedded URL is not rewritten to the current bind address. -/
theorem C2_counterexample :
    (doGET ⟨false, true, "127.0.0.1".toList, 8080⟩ (fun _ => none)
        (fun k => if k = fixtureKey "/fakeogcapi/x".toList then
          some "http://127.0.0.1:12345/a".toList else none)
        "/fakeogcapi/x".toList).2 =
      .served "http://127.0.0.1:80805/a".toList ∧
    GetOutcome.served "http://127.0.0.1:80805/a".toList ≠
      .served "http://127.0.0.1:8080/a".toList := by
  constructor
  · have hfake : containsSub fakeMarker "/fakeogcapi/x".toList = true := by decide
    rw [doGET]
    simp only [hfake, if_true, Bool.false_eq_true, if_false, if_pos rfl]
    have hlb : localBase ⟨false, true, "127.0.0.1".toList, 8080⟩ =
        "http://127.0.0.1:8080".toList := by decide
    rw [hlb]
    simp [portSub, portMatchAt, matchesAt, fourDigits, portPrefix, String.toList]
  · simp [String.toList]

/-- C2 (amended): in replay mode, for a fixture consisting of blocks free of
the literal `http://127.0.0.1:` joined by old base URLs whose port has
exactly four digits, serving the synthetic GET returns the same blocks
joined by the current base `http://<addr>:<port>`: every embedded old base
URL is rewritten and every other byte is unchanged.  (For ports with five or
more digits the regex leaves the extra digits behind; see the
counterexample.) -/
theorem C2_replay_rewrites_ports (cfg : Config) (up : List Char → Option UpResp)
    (store : Store) (path : List Char) (P : List Char) (parts : List (List Char))
    (hrec : cfg.record = false)
    (hfake : containsSub fakeMarker path = true)
    (hP4 : P.length = 4) (hPd : ∀ c ∈ P, c.isDigit = true)
    (hparts : ∀ part ∈ parts, containsSub portPrefix part = false)
    (hstore : store (fixtureKey path) = some (joinWith (portPrefix ++ P) parts)) :
    doGET cfg up store path = (store, .served (joinWith (localBase cfg) parts)) := by
  rw [doGET]
  simp only [hfake, if_true]
  rw [hrec]
  simp only [Bool.false_eq_true, if_false]
  rw [hstore]
  simp only []
  rw [portSub_joinWith hP4 hPd hparts]

theorem C2_replay_rewrites_ports_witness :
    doGET ⟨false, true, "127.0.0.1".toList, 8080⟩ (fun _ => none)
        (fun k => if k = fixtureKey "/fakeogcapi/x".toList then
          some (joinWith (portPrefix ++ "1234".toList)
            ["HTTP/1.1 200 OK ".toList, "/collections ".toList, "/x".toList]) else none)
        "/fakeogcapi/x".toList =
      ((fun k => if k = fixtureKey "/fakeogcapi/x".toList then
          some (joinWith (portPrefix ++ "1234".toList)
            ["HTTP/1.1 200 OK ".toList, "/collections ".toList, "/x".toList]) else none),
        .served (joinWith (localBase ⟨false, true, "127.0.0.1".toList, 8080⟩)
          ["HTTP/1.1 200 OK ".toList, "/collections ".toList, "/x".toList])) :=
  C2_replay_rewrites_ports _ _ _ _ "1234".toList
    ["HTTP/1.1 200 OK ".toList, "/collections ".toList, "/x".toList]
    rfl (by decide) (by decide) (by decide) (by decide) (by simp)

/-! ## Claim C3 -/

/-- C3, as stated, is false in its last part: the key derived from the
synthetic path `/fakeogcapi/collections/x` is `request_collections_x`, while
the real upstream path for the same collection is
`/ogcapi/collections/x` (the endpoint path plus the remainder), whose key is
`_ogcapi_collections_x`; the two keys differ. -/
theorem C3_counterexample :
    sanitize_url "/fakeogcapi/collections/x".toList = "request_collections_x".toList ∧
    sanitize_url "/ogcapi/collections/x".toList = "_ogcapi_collections_x".toList ∧
    sanitize_url "/fakeogcapi/collections/x".toList ≠
      sanitize_url "/ogcapi/collections/x".toList := by
  refine ⟨?_, ?_, ?_⟩
  · simp [sanitize_url, replaceReserved, reservedChars, replaceChar, precisionSub,
      replaceSubstr, sanitizedMarker, requestLit, matchesAt, String.toList]
  · simp [sanitize_url, replaceReserved, reservedChars, replaceChar, precisionSub,
      replaceSubstr, sanitizedMarker, requestLit, matchesAt, String.toList]
  · intro h
    rw [show sanitize_url "/fakeogcapi/collections/x".toList =
        "request_collections_x".toList from by
      simp [sanitize_url, replaceReserved, reservedChars, replaceChar, precisionSub,
        replaceSubstr, sanitizedMarker, requestLit, matchesAt, String.toList]] at h
    rw [show sanitize_url "/ogcapi/collections/x".toList =
        "_ogcapi_collections_x".toList from by
      simp [sanitize_url, replaceReserved, reservedChars, replaceChar, precisionSub,
        replaceSubstr, sanitizedMarker, requestLit, matchesAt, String.toList]] at h
    simp [String.toList] at h

/-- C3 (amended): key derivation first replaces each character of the
reserved set `& # / ? = : , ( )` by the filler `_` (and leaves every other
character alone), and then replaces the resulting sanitized marker
`_fakeogcapi` with the fixed literal `request`, so that the key of a
synthetic path is `request` followed by the key of the path remainder; this
key does not coincide with the key of the real upstream path (see the
counterexample). -/
theorem C3_reserved_and_marker :
    (∀ s, replaceReserved s = s.map sanitizeChar) ∧
    (∀ c ∈ reservedChars, sanitizeChar c = '_') ∧
    (∀ c, c ∉ reservedChars → sanitizeChar c = c) ∧
    (∀ r, sanitize_url (fakeMarker ++ r) = requestLit ++ sanitize_url r) :=
  ⟨replaceReserved_eq_map, fun _ h => sanitizeChar_mem_reserved h,
    fun _ h => sanitizeChar_of_not_reserved h, sanitize_url_fake_append⟩

theorem C3_reserved_and_marker_witness :
    replaceReserved "a&b".toList = ("a&b".toList).map sanitizeChar ∧
    sanitizeChar '&' = '_' ∧
    sanitizeChar 'a' = 'a' ∧
    sanitize_url (fakeMarker ++ "/z".toList) = requestLit ++ sanitize_url "/z".toList :=
  ⟨C3_reserved_and_marker.1 _, C3_reserved_and_marker.2.1 '&' (by decide),
    C3_reserved_and_marker.2.2.1 'a' (by decide), C3_reserved_and_marker.2.2.2 _⟩

/-! ## Claim C4 -/

/-- C4: the precision regex truncates any decimal number with more than four
digits after the dot to exactly its first four decimal digits, regardless of
the values of the trailing digits; in particular the keys of
`bbox=53.54210000001` and `bbox=53.54219999` both contain `53.5421` and
coincide. -/
theorem C4_truncate_to_four (D E4 E5 r : List Char) :
    (D ≠ [] → (∀ c ∈ D, c.isDigit = true) →
      E4.length = 4 → (∀ c ∈ E4, c.isDigit = true) →
      E5 ≠ [] → (∀ c ∈ E5, c.isDigit = true) →
      (∀ x, r.head? = some x → x.isDigit = false) →
      precisionSub (D ++ '.' :: (E4 ++ E5 ++ r)) = D ++ '.' :: E4 ++ precisionSub r) ∧
    sanitize_url "bbox=53.54210000001".toList = "bbox_53.5421".toList ∧
    sanitize_url "bbox=53.54219999".toList = "bbox_53.5421".toList := by
  refine ⟨fun h1 h2 h3 h4 h5 h6 h7 => precisionSub_match h1 h2 h3 h4 h5 h6 h7, ?_, ?_⟩
  · simp [sanitize_url, replaceReserved, reservedChars, replaceChar, precisionSub,
      replaceSubstr, sanitizedMarker, requestLit, matchesAt, String.toList]
  · simp [sanitize_url, replaceReserved, reservedChars, replaceChar, precisionSub,
      replaceSubstr, sanitizedMarker, requestLit, matchesAt, String.toList]

theorem C4_truncate_to_four_witness :
    precisionSub ("53".toList ++ '.' :: ("5421".toList ++ "0000001".toList ++ [])) =
      "53".toList ++ '.' :: "5421".toList ++ precisionSub [] :=
  (C4_truncate_to_four "53".toList "5421".toList "0000001".toList []).1
    (by decide) (by decide) (by decide) (by decide) (by decide) (by decide)
    (by intro x hx; simp at hx)

/-! ## Claim C5 -/

/-- C5: in replay mode a GET is answered with the 404 message naming the
requested path exactly when the path does not contain the synthetic marker
or the fixture file for its key is absent/unreadable; otherwise the fixture
bytes are served. -/
theorem C5_replay_404_iff (cfg : Config) (up : List Char → Option UpResp)
    (store : Store) (path : List Char) (hrec : cfg.record = false) :
    (doGET cfg up store path).2 = .notFound (notFoundMsg path) ↔
      (containsSub fakeMarker path = false ∨ store (fixtureKey path) = none) := by
  rw [doGET, hrec]
  cases hfake : containsSub fakeMarker path with
  | false => simp
  | true =>
    simp only [if_true, Bool.false_eq_true, if_false]
    cases hstore : store (fixtureKey path) with
    | none => simp
    | some d => simp

theorem C5_replay_404_iff_witness :
    ((doGET ⟨false, true, "127.0.0.1".toList, 8080⟩ (fun _ => none)
        (fun _ => none) "/nowhere".toList).2 =
      .notFound (notFoundMsg "/nowhere".toList) ↔
      (containsSub fakeMarker "/nowhere".toList = false ∨
        (fun _ => none : Store) (fixtureKey "/nowhere".toList) = none)) :=
  C5_replay_404_iff _ _ _ _ rfl

/-! ## Claim C6 -/

/-- C6: in recording mode, a synthetic GET with the skip-if-already-recorded
flag set and an existing record serves the record without fetching or
writing anything; otherwise it fetches the equivalent upstream path,
persists the rewritten complete response (status line, headers with fixed
length, rewritten body — `buildRecord`) under the request key and serves
those same bytes. -/
theorem C6_record_mode (cfg : Config) (up : List Char → Option UpResp)
    (store : Store) (path : List Char) (resp : UpResp) (d : List Char)
    (hrec : cfg.record = true) (hfake : containsSub fakeMarker path = true) :
    (cfg.recordNewOnly = true → store (fixtureKey path) = some d →
      doGET cfg up store path = (store, .served d)) ∧
    ((cfg.recordNewOnly = false ∨ store (fixtureKey path) = none) →
      up (upstreamUrl path) = some resp →
      doGET cfg up store path =
        (updateStore store (fixtureKey path) (some (buildRecord cfg resp)),
          .served (buildRecord cfg resp))) := by
  constructor
  · intro hnew hstore
    rw [doGET]
    simp only [hfake, if_true]
    rw [hrec]
    simp only [if_true]
    rw [hnew, hstore]
  · intro hskip hup
    rw [doGET]
    simp only [hfake, if_true]
    rw [hrec]
    simp only [if_true]
    rcases hskip with h | h
    · rw [h]
      simp [hup]
    · rw [h]
      cases cfg.recordNewOnly
      all_goals simp [hup]

theorem C6_record_mode_witness :
    (doGET ⟨true, true, "127.0.0.1".toList, 8080⟩ (fun _ => none)
        (fun _ => some "REC".toList) "/fakeogcapi/x".toList =
      ((fun _ => some "REC".toList : Store), .served "REC".toList)) ∧
    (doGET ⟨true, false, "127.0.0.1".toList, 8080⟩
        (fun u => if u = upstreamUrl "/fakeogcapi/x".toList then
          some ⟨200, "OK".toList, [], "body".toList⟩ else none)
        (fun _ => none) "/fakeogcapi/x".toList =
      (updateStore (fun _ => none) (fixtureKey "/fakeogcapi/x".toList)
          (some (buildRecord ⟨true, false, "127.0.0.1".toList, 8080⟩
            ⟨200, "OK".toList, [], "body".toList⟩)),
        .served (buildRecord ⟨true, false, "127.0.0.1".toList, 8080⟩
          ⟨200, "OK".toList, [], "body".toList⟩))) :=
  ⟨(C6_record_mode _ _ _ _ ⟨200, "OK".toList, [], "body".toList⟩ "REC".toList
      rfl (by decide)).1 rfl rfl,
    (C6_record_mode _ _ _ _ _ [] rfl (by decide)).2 (Or.inl rfl) (by simp)⟩

/-! ## Claim C7 -/

/-- C7: in replay mode, handling a GET never modifies the fixture store —
the port rewriting happens only on the served bytes, the file is untouched. -/
theorem C7_replay_store_unchanged (cfg : Config) (up : List Char → Option UpResp)
    (store : Store) (path : List Char) (hrec : cfg.record = false) :
    (doGET cfg up store path).1 = store := by
  rw [doGET, hrec]
  cases hfake : containsSub fakeMarker path with
  | false => simp
  | true =>
    simp only [if_true, Bool.false_eq_true, if_false]
    cases hstore : store (fixtureKey path) with
    | none => simp
    | some d => simp

theorem C7_replay_store_unchanged_witness :
    (doGET ⟨false, true, "127.0.0.1".toList, 8080⟩ (fun _ => none)
      (fun _ => some "REC".toList) "/fakeogcapi/x".toList).1 =
      (fun _ => some "REC".toList : Store) :=
  C7_replay_store_unchanged _ _ _ _ rfl

/-! ## Claim C8 -/

/-- C8: fixture-key derivation is deterministic — `sanitize_url` is a pure
function of the request path alone, so equal paths always yield equal
keys, across calls and runs. -/
theorem C8_key_deterministic (p q : List Char) (h : p = q) :
    sanitize_url p = sanitize_url q := by
  rw [h]

theorem C8_key_deterministic_witness :
    sanitize_url "/fakeogcapi/x".toList = sanitize_url "/fakeogcapi/x".toList :=
  C8_key_deterministic _ _ rfl

/-! ## Claim C9 -/

/-- C9, as stated, is false: `sanitize_url` is not idempotent.  On
`1.23456.78901` the first pass truncates the first number to `1.2345` and
resumes scanning after the consumed digits, leaving `1.2345.78901`; that
output contains a fresh match (`2345.78901`), which a second pass truncates
to `1.2345.7890`. -/
theorem C9_counterexample :
    sanitize_url "1.23456.78901".toList = "1.2345.78901".toList ∧
    sanitize_url "1.2345.78901".toList = "1.2345.7890".toList ∧
    sanitize_url (sanitize_url "1.23456.78901".toList) ≠
      sanitize_url "1.23456.78901".toList := by
  have h1 : sanitize_url "1.23456.78901".toList = "1.2345.78901".toList := by
    simp [sanitize_url, replaceReserved, reservedChars, replaceChar, precisionSub,
      replaceSubstr, sanitizedMarker, requestLit, matchesAt, String.toList]
  have h2 : sanitize_url "1.2345.78901".toList = "1.2345.7890".toList := by
    simp [sanitize_url, replaceReserved, reservedChars, replaceChar, precisionSub,
      replaceSubstr, sanitizedMarker, requestLit, matchesAt, String.toList]
  refine ⟨h1, h2, ?_⟩
  rw [h1, h2]
  simp [String.toList]

/-- C9 (amended): a derived key contains no reserved character and no
occurrence of the sanitized marker, and every string free of reserved
characters, marker occurrences and precision-pattern matches is a fixed
point of `sanitize_url`; full idempotence fails only because a first
truncation can expose a fresh precision match (see the counterexample). -/
theorem C9_fixed_point_characterisation :
    (∀ s, ∀ c ∈ sanitize_url s, c ∉ reservedChars) ∧
    (∀ s, containsSub sanitizedMarker (sanitize_url s) = false) ∧
    (∀ s, (∀ c ∈ s, c ∉ reservedChars) → hasPrec s = false →
      containsSub sanitizedMarker s = false → sanitize_url s = s) :=
  ⟨fun _ => sanitize_url_no_reserved, sanitize_url_no_marker,
    fun _ => sanitize_url_fixed⟩

theorem C9_fixed_point_characterisation_witness :
    (∀ c ∈ sanitize_url "/fakeogcapi/x".toList, c ∉ reservedChars) ∧
    containsSub sanitizedMarker (sanitize_url "/fakeogcapi/x".toList) = false ∧
    sanitize_url "request_collections_x".toList = "request_collections_x".toList :=
  ⟨C9_fixed_point_characterisation.1 _,
    C9_fixed_point_characterisation.2.1 _,
    C9_fixed_point_characterisation.2.2 _ (by decide) (by decide) (by decide)⟩

/-! ## Claim C10 -/

/-- C10: in recording mode with the skip flag set and an existing record,
the stored bytes are served verbatim — no port rewriting — while the replay
branch serves the same fixture with its embedded loopback URL rewritten to
the current bind address (the concrete second part: a stored
`http://127.0.0.1:1234` is served back as `http://127.0.0.1:9090` by
replay). -/
theorem C10_skip_serves_verbatim (cfg : Config) (up : List Char → Option UpResp)
    (store : Store) (path : List Char) (d : List Char)
    (hrec : cfg.record = true) (hnew : cfg.recordNewOnly = true)
    (hfake : containsSub fakeMarker path = true)
    (hstore : store (fixtureKey path) = some d) :
    doGET cfg up store path = (store, .served d) ∧
    ((doGET ⟨false, true, "127.0.0.1".toList, 9090⟩ (fun _ => none)
        (fun k => if k = fixtureKey "/fakeogcapi/x".toList then
          some "http://127.0.0.1:1234".toList else none)
        "/fakeogcapi/x".toList).2 = .served "http://127.0.0.1:9090".toList ∧
      "http://127.0.0.1:9090".toList ≠ "http://127.0.0.1:1234".toList) := by
  constructor
  · rw [doGET]
    simp only [hfake, if_true]
    rw [hrec]
    simp only [if_true]
    rw [hnew, hstore]
  · constructor
    · rw [doGET]
      simp +decide []
      rw [show localBase ⟨false, true,
          ['1','2','7','.','0','.','0','.','1'], 9090⟩ =
          ['h','t','t','p',':','/','/','1','2','7','.','0','.','0','.','1',
            ':','9','0','9','0'] from by decide]
      simp [portSub, portMatchAt, matchesAt, fourDigits, portPrefix, String.toList]
    · simp [String.toList]

theorem C10_skip_serves_verbatim_witness :
    doGET ⟨true, true, "127.0.0.1".toList, 8080⟩ (fun _ => none)
        (fun _ => some "http://127.0.0.1:1234".toList) "/fakeogcapi/x".toList =
      ((fun _ => some "http://127.0.0.1:1234".toList : Store),
        .served "http://127.0.0.1:1234".toList) :=
  (C10_skip_serves_verbatim ⟨true, true, "127.0.0.1".toList, 8080⟩ (fun _ => none)
    (fun _ => some "http://127.0.0.1:1234".toList) "/fakeogcapi/x".toList
    "http://127.0.0.1:1234".toList rfl rfl (by decide) rfl).1

end OgcApi
